import Mathlib

/-!
Shallow embedding of the QuranVid export pipeline
(`src/src-tauri/src/exporter.rs`, `src/src-tauri/src/renderer.rs`).

Conventions used throughout:
* Rust `f64`/`f32` arithmetic is modelled by exact rational arithmetic (`ℚ`).
  All quantities appearing in the verified claims stay far from the
  precision boundary of `f64`, so the idealization is faithful on the
  inputs the theorems and witnesses use.
* Rust integer types (`i32`, `i64`, `usize`) are modelled by `ℤ` / `ℕ`;
  the values involved are far from overflow, and where the source performs
  a range check (string-to-integer parsing) the bound is modelled exactly.
* Rust strings are modelled as `List Char`; only ASCII data appears in the
  claims.
* Filesystem and process side effects are modelled by the data that
  crosses the boundary: argument vectors, file names, event traces.
-/

/-- Rust `f64::round`: round half away from zero
(`exporter.rs:594`, `(seconds / frame_duration).round()`). -/
def rustRound (x : ℚ) : ℤ := if 0 ≤ x then ⌊x + 1/2⌋ else -⌊-x + 1/2⌋

/-- The `snap_time` closure of `calculate_export_timings` (`exporter.rs:592-596`):
`snap(ms) = round(ms/1000 * fps) / fps`, i.e. the millisecond timestamp snapped
to the frame grid, in seconds. -/
def snapTime (fps : ℤ) (ms : ℤ) : ℚ := (rustRound ((ms : ℚ) / 1000 * fps) : ℚ) / fps

/-- The `raw_durations` loop of `calculate_export_timings` (`exporter.rs:607-613`):
for each onset the distance to the next snapped onset (the synthetic tail
`t + tail_ms` for the last onset), clamped below by `0.001` seconds
(`.max(0.001)` in the source). -/
def segmentDurs (fps tailMs : ℤ) : List ℤ → List ℚ
  | [] => []
  | [t] => [max (snapTime fps (t + tailMs) - snapTime fps t) (1/1000)]
  | t :: u :: rest =>
      max (snapTime fps u - snapTime fps t) (1/1000) :: segmentDurs fps tailMs (u :: rest)

/-- Result record of `calculate_export_timings` (`exporter.rs:574-578`). -/
structure ExportTimings where
  durations_s : List ℚ
  start_s : ℚ
  duration_s : ℚ

/-- Embedding of `calculate_export_timings` (`exporter.rs:580-628`).
The source indexes `timestamps_ms[n-1]`, so it requires a non-empty onset
list; `getLastD _ 0` models that access (theorems only use non-empty lists).
The `is_high_fidelity` flag is dropped: both branches of the source assign
the same `raw_durations` (`exporter.rs:616-621`). -/
def calculateExportTimings (timestampsMs : List ℤ) (fps fadeDurationMs startTimeMs : ℤ)
    (durationMs : Option ℤ) : ExportTimings :=
  let tailMs := max fadeDurationMs 1000
  let frameDuration : ℚ := 1 / fps
  let start_s := snapTime fps startTimeMs
  let endMs : ℤ :=
    match durationMs with
    | some d => startTimeMs + d
    | none => timestampsMs.getLastD 0 + tailMs
  let end_s := snapTime fps endMs
  ExportTimings.mk (segmentDurs fps tailMs timestampsMs) start_s
    (max (end_s - start_s) frameDuration)

/-- The hypothesis under which the `.max(0.001)` clamp of `segmentDurs` never
fires: every pair of consecutive snapped onsets (including the synthetic tail
after the last onset) is at least `0.001` seconds apart. -/
def noClampList (fps tailMs : ℤ) : List ℤ → Prop
  | [] => True
  | [t] => 1/1000 ≤ snapTime fps (t + tailMs) - snapTime fps t
  | t :: u :: rest =>
      1/1000 ≤ snapTime fps u - snapTime fps t ∧ noClampList fps tailMs (u :: rest)

/-- The per-clip walk of `preprocess_background_videos` (`exporter.rs:462-527`),
video path. Input: the probed clip durations in ms, the window start and the
requested limit (`duration_ms`, `i64::MAX` when absent). Output: the
`(clip index, start_within, take_ms)` triple of every segment the function
extracts, in order. The cache lookup and the ffmpeg invocation consume those
triples but do not alter them; the fallback on encode failure affects only
the emitted path, not the walk. -/
def bgSegmentsAux (startMs limitMs : ℤ) : List ℤ → ℕ → ℤ → List (ℕ × ℤ × ℤ)
  | [], _, _ => []
  | d :: rest, idx, cum =>
      let cumEnd := cum + d
      if cumEnd ≤ startMs then
        bgSegmentsAux startMs limitMs rest (idx + 1) cumEnd
      else if limitMs ≤ cum - startMs then
        []
      else
        let sw := if startMs > cum then startMs - cum else 0
        let rn := max (limitMs - (cum + sw - startMs)) 0
        let tk := min rn (d - sw)
        if tk ≤ 0 then
          bgSegmentsAux startMs limitMs rest (idx + 1) cumEnd
        else
          (idx, sw, tk) ::
            (if limitMs ≤ cum + sw + tk - startMs then []
             else bgSegmentsAux startMs limitMs rest (idx + 1) cumEnd)

/-- `i64::MAX`, the limit used when no `duration_ms` is supplied
(`exporter.rs:460`). -/
def i64Max : ℤ := 9223372036854775807

/-- Top-level entry of the background walk (`exporter.rs:460-527`):
`limit_ms = duration_ms.unwrap_or(i64::MAX)`, cumulative offset starts at 0. -/
def preprocessBgSegments (clipDursMs : List ℤ) (startTimeMs : ℤ)
    (durationMs : Option ℤ) : List (ℕ × ℤ × ℤ) :=
  bgSegmentsAux startTimeMs (durationMs.getD i64Max) clipDursMs 0 0

/-- Sum of the first `k` clip durations: the cumulative start offset of clip
`k` in the playlist walk. -/
def takeSum (durs : List ℤ) (k : ℕ) : ℤ := (durs.take k).sum

/-- `total_frames` of `start_streaming_export` (`exporter.rs:1664-1669`):
`(d as f64 / 1000.0 * fps as f64) as usize` when `duration_ms` is present
(the `as usize` cast truncates toward zero and saturates at 0 from below),
a dummy `100` otherwise. -/
def totalFrames (durationMs : Option ℤ) (fps : ℤ) : ℕ :=
  match durationMs with
  | some d => (⌊(d : ℚ) / 1000 * fps⌋).toNat
  | none => 100

/-- Frame-count behaviour of the Mode B render loop (`exporter.rs:1686-1776`):
starting at `frame_idx = 0`, the loop breaks when `frame_idx ≥ total_frames`,
then reads one decoded frame (breaking on EOF, modelled by the number `avail`
of frames the decoder can supply), writes it to the encoder pipe and
increments `frame_idx`. The result is the number of frames written. -/
def loopFrames : ℕ → ℕ → ℕ
  | _, 0 => 0
  | 0, _ + 1 => 0
  | avail + 1, total + 1 => loopFrames avail total + 1

/-- Number base-10 digits of a natural number, most significant first
(the digit sequence Rust `Display` prints for an unsigned integer). -/
def natDigits (n : ℕ) : List ℕ :=
  if n < 10 then [n] else natDigits (n / 10) ++ [n % 10]
decreasing_by exact Nat.div_lt_self (by omega) (by omega)

/-- The ASCII character of a decimal digit. -/
def digitChar (d : ℕ) : Char :=
  match d with
  | 0 => '0' | 1 => '1' | 2 => '2' | 3 => '3' | 4 => '4'
  | 5 => '5' | 6 => '6' | 7 => '7' | 8 => '8' | _ => '9'

/-- Decimal rendering of a natural number (Rust `format!("{}", n)`). -/
def natDigitChars (n : ℕ) : List Char := (natDigits n).map digitChar

/-- The filename the Mode B loop loads when the active subtitle index changes
(`exporter.rs:1720`): `format!("{}.png", idx)` — built from the loop *index*. -/
def subtitleFileName (idx : ℕ) : List Char := natDigitChars idx ++ ['.', 'p', 'n', 'g']

/-- Modelled from the spec: the filename the claim says should be loaded —
the SubtitleFrame whose stem is the onset `t[i]` in milliseconds
("its identity is an integer `onset_ms` parsed from the filename stem").
This is the comparison definition for the refutation of C2; it is not in the
source, which uses `subtitleFileName` instead. -/
def claimedSubtitleFileName (timestampsMs : List ℤ) (idx : ℕ) : List Char :=
  natDigitChars (timestampsMs.getD idx 0).toNat ++ ['.', 'p', 'n', 'g']

/-- `i32::MAX`, the open end of the last subtitle interval in the Mode B
active-subtitle search (`exporter.rs:1710`). -/
def i32Max : ℤ := 2147483647

/-- The active-subtitle search of the Mode B loop (`exporter.rs:1708-1715`):
scan indices in order, the bound of index `i` being `ts[i+1]` (or `i32::MAX`
for the last), and return the first `i` with `ts[i] ≤ time < bound`. -/
def findCurrentSubAux (timeMs : ℤ) : List ℤ → ℕ → Option ℕ
  | [], _ => none
  | t :: rest, i =>
      let e : ℤ := match rest with | [] => i32Max | u :: _ => u
      if t ≤ timeMs ∧ timeMs < e then some i
      else findCurrentSubAux timeMs rest (i + 1)

/-- Entry point of the active-subtitle search, starting at index 0. -/
def findCurrentSub (timestampsMs : List ℤ) (timeMs : ℤ) : Option ℕ :=
  findCurrentSubAux timeMs timestampsMs 0

/-- The frame clock of the Mode B loop (`exporter.rs:1705`):
`time_ms = (frame_idx as f64 / fps as f64 * 1000.0) as i32 + start_time_ms`
(truncating cast; the operand is nonnegative for `fps > 0`). -/
def frameTimeMs (fps startTimeMs : ℤ) (frameIdx : ℕ) : ℤ :=
  ⌊(frameIdx : ℚ) / fps * 1000⌋ + startTimeMs

/-- The fade-alpha computation of the Mode B loop (`exporter.rs:1732-1744`):
`end_ms` is the next onset or `ts[idx] + 2000` for the last subtitle; alpha is
`min(rel/fade, 1)` while `rel < fade`, else `min(rel_end/fade, 1)` while
`rel_end < fade`, else `1`. `f32` arithmetic is modelled by `ℚ`. -/
def fadeAlpha (timestampsMs : List ℤ) (idx : ℕ) (timeMs fadeMs : ℤ) : ℚ :=
  let startMs := timestampsMs.getD idx 0
  let endMs : ℤ :=
    match timestampsMs[idx + 1]? with
    | some u => u
    | none => timestampsMs.getD idx 0 + 2000
  let relMs := timeMs - startMs
  let relEndMs := endMs - timeMs
  if relMs < fadeMs then min ((relMs : ℚ) / fadeMs) 1
  else if relEndMs < fadeMs then min ((relEndMs : ℚ) / fadeMs) 1
  else 1

/-- Modelled from the spec: the alpha formula as the claim states it —
`alpha = min(1, rel_in / fade_ms)` while fading in, `min(1, rel_out / fade_ms)`
while fading out, `1` in the middle, with `rel_in = frame_time_ms - t[i]` and
`rel_out = end - frame_time_ms`. Comparison definition for C6. -/
def claimAlpha (timestampsMs : List ℤ) (idx : ℕ) (timeMs fadeMs : ℤ) : ℚ :=
  let relIn := timeMs - timestampsMs.getD idx 0
  let relOut : ℤ :=
    (match timestampsMs[idx + 1]? with
     | some u => u
     | none => timestampsMs.getD idx 0 + 2000) - timeMs
  if relIn < fadeMs then min 1 ((relIn : ℚ) / fadeMs)
  else if relOut < fadeMs then min 1 ((relOut : ℚ) / fadeMs)
  else 1

/-- Observable events of an export job, in source order: process spawning,
registry (`ACTIVE_EXPORTS`) insertion/removal, blocking pipe I/O, waiting,
killing, event emission, background preprocessing, and the Mode B
decoder/encoder lifecycle. -/
inductive ExpEvent where
  | spawnChild
  | regInsert
  | regRemove
  | longRead
  | childWait
  | childKill
  | emitErr
  | emitDone
  | bgPreprocess
  | decoderSpawn
  | encoderSpawn
  | encoderFinish
deriving DecidableEq

/-- Terminal outcome of a Mode A job. -/
inductive ExpOutcome where
  | success
  | failure
  | cancelled
deriving DecidableEq

/-- Event trace of `build_and_run_ffmpeg_filter_complex` (Mode A,
`exporter.rs:804-1148`): optional background preprocessing (`:839`), spawn
(`:999`), registry insertion (`:1001-1006`), the blocking stderr read loop
(`:1021-1059`), wait (`:1062`), registry removal (`:1085-1088`), and an
error event on failure (`:1144`). On cancel, `cancel_export`
(`exporter.rs:1401-1417`) removes the registry entry and kills the child
while the read loop is still blocked; the function then observes the stolen
handle and emits the error (`:1064-1080`). -/
def modeATrace (hasBg : Bool) : ExpOutcome → List ExpEvent
  | .success =>
      (if hasBg then [ExpEvent.bgPreprocess] else []) ++
        [ExpEvent.spawnChild, ExpEvent.regInsert, ExpEvent.longRead,
         ExpEvent.childWait, ExpEvent.regRemove]
  | .failure =>
      (if hasBg then [ExpEvent.bgPreprocess] else []) ++
        [ExpEvent.spawnChild, ExpEvent.regInsert, ExpEvent.longRead,
         ExpEvent.childWait, ExpEvent.regRemove, ExpEvent.emitErr]
  | .cancelled =>
      (if hasBg then [ExpEvent.bgPreprocess] else []) ++
        [ExpEvent.spawnChild, ExpEvent.regInsert, ExpEvent.longRead,
         ExpEvent.regRemove, ExpEvent.childKill, ExpEvent.emitErr]

/-- Event trace of `start_streaming_export` (Mode B, `exporter.rs:1594-1791`):
decoder spawn (`:1630`), encoder spawn (`:1640`), the blocking render loop
(`:1681-1776`), and the completion or error event. The registration block at
`exporter.rs:1653-1662` is only a comment ("we don't track it in
ACTIVE_EXPORTS directly here"), so no registry event occurs, and
`preprocess_background_videos` is never called on this path. -/
def modeBTrace : Bool → List ExpEvent
  | true => [ExpEvent.decoderSpawn, ExpEvent.encoderSpawn, ExpEvent.longRead,
             ExpEvent.encoderFinish, ExpEvent.emitDone]
  | false => [ExpEvent.decoderSpawn, ExpEvent.encoderSpawn, ExpEvent.longRead,
              ExpEvent.emitErr]

/-- Audio codec arguments of the Mode A command builder
(`exporter.rs:947-964`): ALAC stereo when `chunk_index` is present, AAC at
320 kb/s stereo otherwise; nothing when the graph carries no audio. -/
def modeAAudioArgs (haveAudio : Bool) (chunkIndex : Option ℤ) : List String :=
  if haveAudio then
    if chunkIndex.isSome then ["-c:a", "alac", "-ac", "2"]
    else ["-c:a", "aac", "-b:a", "320k", "-ac", "2"]
  else []

/-- Audio codec arguments of `VideoEncoder::new` (`renderer.rs:190-193`):
unconditionally AAC at 320 kb/s stereo whenever audio inputs exist. -/
def videoEncoderAudioArgs (haveAudio : Bool) : List String :=
  if haveAudio then ["-c:a", "aac", "-b:a", "320k", "-ac", "2"] else []

/-- Audio codec arguments for a Mode B streaming export:
`start_streaming_export` has `chunk_index` in scope (`exporter.rs:1607`) but
never forwards it to `VideoEncoder::new` (`exporter.rs:1640-1651`), so the
choice cannot depend on it. -/
def modeBStreamAudioArgs (haveAudio : Bool) (_chunkIndex : Option ℤ) : List String :=
  videoEncoderAudioArgs haveAudio

/-- Error message of `start_streaming_export` for an empty background
playlist (`exporter.rs:1627`). -/
def noBackgroundMsg : String := "No background video provided"

/-- Background selection of `start_streaming_export` (`exporter.rs:1624-1628`):
only `bg_videos[0]` is used; an empty playlist is an error. -/
def streamingBgSelect (bgVideos : List String) : Except String String :=
  match bgVideos with
  | [] => Except.error noBackgroundMsg
  | p :: _ => Except.ok p

/-- Argument vector of `VideoDecoder::new` (`renderer.rs:61-72`): raw RGBA
frames piped out at the requested rate; no `-ss` seek, no `-vf` filter, no
scaling, padding or blur. -/
def videoDecoderArgs (path : String) (fps : ℕ) : List String :=
  ["-i", path, "-f", "image2pipe", "-pix_fmt", "rgba", "-vcodec", "rawvideo",
   "-r", Nat.repr fps, "-"]

/-- Rust `str::parse::<i32>` (used at `exporter.rs:1204-1209` and `:1230-1237`),
restricted to the decimal grammar: optional sign, one or more ASCII digits,
value within `i32` range. -/
def parseI32 (l : List Char) : Option ℤ :=
  match l with
  | [] => none
  | c :: rest =>
      let ds := if c == '+' || c == '-' then rest else l
      let neg := c == '-'
      if ds.isEmpty || !(ds.all Char.isDigit) then none
      else
        let v : ℤ := (ds.foldl (fun a ch => a * 10 + (ch.toNat - 48)) 0 : ℕ)
        if neg then (if v > 2147483648 then none else some (-v))
        else (if v > 2147483647 then none else some v)

/-- The sort key of `export_video` (`exporter.rs:1204-1209`): the filename
stem parsed as `i32`, `0` when unparseable (`unwrap_or(0)`). -/
def stemKey (stem : List Char) : ℤ := (parseI32 stem).getD 0

/-- Rust `Path::extension` on a file name: the part after the last dot,
`none` when there is no dot or the only dot is the leading character. -/
def splitLastDot (l : List Char) : List Char × Option (List Char) :=
  match l.reverse.findIdx? (fun c => c == '.') with
  | none => (l, none)
  | some k =>
      let dotPos := l.length - 1 - k
      if dotPos = 0 then (l, none)
      else (l.take dotPos, some (l.drop (dotPos + 1)))

/-- The directory scan of `export_video` (`exporter.rs:1191-1202`): keep the
stems of files whose extension lowercases to `png`. -/
def pngStems (files : List (List Char)) : List (List Char) :=
  files.filterMap (fun f =>
    match splitLastDot f with
    | (stem, some ext) =>
        if ext.map Char.toLower = ['p', 'n', 'g'] then some stem else none
    | (_, none) => none)

/-- The onset sequence `export_video` passes downstream
(`exporter.rs:1204-1238`): stems sorted by `stemKey` (Rust's stable
`sort_by_key`), then each stem mapped to its parsed key. Sorting is modelled
by `insertionSort` on the same key; since the final sequence is the key list
of the key-sorted stems, it is the sorted multiset of keys and does not
depend on which stable sorting algorithm produced it. -/
def exportOnsets (files : List (List Char)) : List ℤ :=
  (List.insertionSort (fun a b => stemKey a ≤ stemKey b) (pngStems files)).map stemKey

/-- ASCII whitespace, modelling Rust `char::is_whitespace` on the character
set that occurs in toolchain progress lines. -/
def isWsChar (c : Char) : Bool := c == ' ' || c == '\t' || c == '\n' || c == '\r'

/-- Auxiliary for `findSub`: does `pat` start the given list? -/
def isPrefixOfChars : List Char → List Char → Bool
  | [], _ => true
  | _ :: _, [] => false
  | a :: as, b :: bs => a == b && isPrefixOfChars as bs

/-- Rust `str::find` for a literal pattern: index of its first occurrence. -/
def findSub : List Char → List Char → Option ℕ
  | [], pat => if isPrefixOfChars pat [] then some 0 else none
  | c :: rest, pat =>
      if isPrefixOfChars pat (c :: rest) then some 0
      else (findSub rest pat).map (fun i => i + 1)

/-- The pattern `time=` searched at `exporter.rs:1345`. -/
def timeEq : List Char := ['t', 'i', 'm', 'e', '=']

/-- The pattern `out_time_ms=` searched at `exporter.rs:1356`. -/
def outTimeMsEq : List Char :=
  ['o', 'u', 't', '_', 't', 'i', 'm', 'e', '_', 'm', 's', '=']

/-- `line[start..].find(char::is_whitespace)` (`exporter.rs:1347`, `:1358`). -/
def findWsIdx (l : List Char) : Option ℕ := l.findIdx? isWsChar

/-- The numeric value of a digit string (the fold Rust integer parsing
performs). -/
def digitsToNat (l : List Char) : ℕ :=
  l.foldl (fun a c => a * 10 + (c.toNat - 48)) 0

/-- Rust `str::parse::<i64>` (`exporter.rs:1359`), restricted to the decimal
grammar: optional sign, one or more ASCII digits, value within `i64` range. -/
def parseI64 (l : List Char) : Option ℤ :=
  match l with
  | [] => none
  | c :: _ =>
      let ds := if c == '+' || c == '-' then l.tail else l
      if ds.isEmpty || !(ds.all Char.isDigit) then none
      else
        let v : ℤ := (digitsToNat ds : ℤ)
        if c == '-' then (if v > 9223372036854775808 then none else some (-v))
        else (if v > 9223372036854775807 then none else some v)

/-- Round half to even: the rounding Rust float formatting applies to the
value at the requested precision. -/
def roundHE (q : ℚ) : ℤ :=
  if Int.fract q < 1/2 then ⌊q⌋
  else if 1/2 < Int.fract q then ⌊q⌋ + 1
  else if ⌊q⌋ % 2 = 0 then ⌊q⌋ else ⌊q⌋ + 1

/-- Zero-padding of a decimal rendering to `k` digits. -/
def padDigits (k n : ℕ) : List Char :=
  List.replicate (k - (natDigitChars n).length) '0' ++ natDigitChars n

/-- Rust `format!("{:.3}", q)` for nonnegative `q`: the value rounded to
three decimal places, rendered as `<int>.<3 digits>`. -/
def fmtFixed3Pos (q : ℚ) : List Char :=
  natDigitChars ((roundHE (q * 1000)).toNat / 1000)
    ++ '.' :: padDigits 3 ((roundHE (q * 1000)).toNat % 1000)

/-- Rust `format!("{:.3}", q)` (`exporter.rs:1361`). -/
def fmtFixed3 (q : ℚ) : List Char :=
  if q < 0 then '-' :: fmtFixed3Pos (-q) else fmtFixed3Pos q

/-- The `time=` value slice (`exporter.rs:1345-1353`): up to the first
whitespace, or to the end of the line when there is none. -/
def extractTimeToken (rest : List Char) : List Char :=
  match findWsIdx rest with
  | some e => rest.take e
  | none => rest

/-- Embedding of `extract_time_from_ffmpeg_line` (`exporter.rs:1343-1367`):
the `time=` branch slices the value out (falling back to end-of-line); the
`out_time_ms=` branch parses the microseconds *only when a whitespace
follows* and re-renders them as `{:.3}` seconds; otherwise `None`. -/
def extractTime (line : List Char) : Option (List Char) :=
  match findSub line timeEq with
  | some i => some (extractTimeToken (line.drop (i + 5)))
  | none =>
      match findSub line outTimeMsEq with
      | some i =>
          match findWsIdx (line.drop (i + 12)) with
          | some e =>
              match parseI64 ((line.drop (i + 12)).take e) with
              | some ms => some (fmtFixed3 ((ms : ℚ) / 1000000))
              | none => none
          | none => none
      | none => none

/-- Rust `str::parse::<f64>` (`exporter.rs:1371`, `:1378-1379`), restricted
to finite decimal notation (optional fractional part after a dot); every
value the driver actually parses has this shape, and the value is exact. -/
def parseUnsignedDec (l : List Char) : Option ℚ :=
  match l.drop (l.takeWhile Char.isDigit).length with
  | [] =>
      if (l.takeWhile Char.isDigit).isEmpty then none
      else some (digitsToNat (l.takeWhile Char.isDigit) : ℚ)
  | c :: frac =>
      if c == '.' then
        if frac.all Char.isDigit then
          if (l.takeWhile Char.isDigit).isEmpty && frac.isEmpty then none
          else some ((digitsToNat (l.takeWhile Char.isDigit) : ℚ)
            + (digitsToNat frac : ℚ) / 10 ^ frac.length)
        else none
      else none

/-- Sign handling of Rust `str::parse::<f64>`. -/
def parseDecimalQ (l : List Char) : Option ℚ :=
  match l with
  | [] => none
  | c :: rest =>
      if c == '+' then parseUnsignedDec rest
      else if c == '-' then (parseUnsignedDec rest).map (fun q => -q)
      else parseUnsignedDec l

/-- Rust `str::split(':')` (`exporter.rs:1376`). -/
def splitCols : List Char → List (List Char)
  | [] => [[]]
  | c :: rest =>
      if c == ':' then [] :: splitCols rest
      else (c :: (splitCols rest).headD []) :: (splitCols rest).tail

/-- Embedding of `parse_ffmpeg_time` (`exporter.rs:1369-1384`): a plain
decimal parses directly; otherwise an `HH:MM:SS.mmm` triple is summed as
`hours * 3600 + minutes * 60 + seconds`; anything else yields `0`. -/
def parseFfTime (s : List Char) : ℚ :=
  match parseDecimalQ s with
  | some q => q
  | none =>
      match splitCols s with
      | [p1, p2, p3] =>
          match parseDecimalQ p1, parseDecimalQ p2, parseDecimalQ p3 with
          | some hh, some mm, some ss => hh * 3600 + mm * 60 + ss
          | _, _, _ => 0
      | _ => 0

/-- The composition the Mode A progress loop applies to each stderr line
(`exporter.rs:1030-1032`): extract the time slice, then parse it;
`none` means no progress event is emitted for the line. -/
def progressOfLine (line : List Char) : Option ℚ :=
  (extractTime line).map parseFfTime

/-- An `HH:MM:SS.mmm` time literal as the toolchain prints it. -/
def renderHMS (h m s mmm : ℕ) : List Char :=
  padDigits 2 h ++ ':' :: (padDigits 2 m ++ ':' :: (padDigits 2 s ++ '.' :: padDigits 3 mmm))

/- ===================== Theorems ===================== -/

theorem loopFrames_eq_min (a t : ℕ) : loopFrames a t = min a t := by
  induction a generalizing t with
  | zero => cases t <;> simp [loopFrames]
  | succ a ih =>
    cases t with
    | zero => simp [loopFrames]
    | succ t => rw [loopFrames, ih]; omega

theorem segmentDurs_sum_of_noClamp (fps tailMs : ℤ) :
    ∀ (t0 : ℤ) (rest : List ℤ), noClampList fps tailMs (t0 :: rest) →
      (segmentDurs fps tailMs (t0 :: rest)).sum
        = snapTime fps ((t0 :: rest).getLastD 0 + tailMs) - snapTime fps t0 := by
  intro t0 rest
  induction rest generalizing t0 with
  | nil =>
      intro h
      simp only [noClampList] at h
      show [max (snapTime fps (t0 + tailMs) - snapTime fps t0) (1/1000)].sum = _
      rw [List.sum_singleton, max_eq_left h]
      simp [List.getLastD]
  | cons u rest ih =>
      intro h
      obtain ⟨h1, h2⟩ := h
      have hrec := ih u h2
      show (max (snapTime fps u - snapTime fps t0) (1/1000)
            :: segmentDurs fps tailMs (u :: rest)).sum = _
      rw [List.sum_cons, hrec, max_eq_left h1]
      have hlast : ((t0 :: u :: rest).getLastD 0) = ((u :: rest).getLastD 0) := by
        simp [List.getLastD]
      rw [hlast]
      ring

/-- C4: the claim as stated is false: with `fps = 30`, onsets `[0, 10]` and
`fade_ms = 0` (so `tail = max(0, 1000) = 1000`), the two onsets snap to the
same frame, the `.max(0.001)` clamp fires, and the segment durations sum to
`1.001` while `snap(t[1] + tail) - snap(t[0]) = 1`. -/
theorem c4_counterexample :
    ((calculateExportTimings [0, 10] 30 0 0 none).durations_s).sum = 1 + 1/1000 ∧
    snapTime 30 (10 + max (0:ℤ) 1000) - snapTime 30 0 = 1 ∧
    (1 + 1/1000 : ℚ) ≠ 1 := by
  refine ⟨?_, ?_, by norm_num⟩
  · show (segmentDurs 30 (max (0:ℤ) 1000) [0, 10]).sum = 1 + 1/1000
    norm_num [segmentDurs, snapTime, rustRound]
  · norm_num [snapTime, rustRound]

/-- C4 (amended): for every non-empty onset list and positive fps, *provided
no pair of consecutive snapped onsets (including the synthetic tail) is closer
than the 0.001 s clamp*, the segment durations of the timeline calculator
telescope: `sum(segment_dur) = snap(t[n-1] + tail) - snap(t[0])` with
`tail = max(fade_ms, 1000)` and `snap(ms) = round(ms/1000 * fps)/fps`. -/
theorem c4_segment_sum_telescopes (fps fadeMs startTimeMs t0 : ℤ) (rest : List ℤ)
    (durationMs : Option ℤ) (hfps : 0 < fps)
    (h : noClampList fps (max fadeMs 1000) (t0 :: rest)) :
    ((calculateExportTimings (t0 :: rest) fps fadeMs startTimeMs durationMs).durations_s).sum
      = snapTime fps ((t0 :: rest).getLastD 0 + max fadeMs 1000) - snapTime fps t0 :=
  segmentDurs_sum_of_noClamp fps (max fadeMs 1000) t0 rest h

/-- C4 witness: a concrete timeline (onsets `[0, 500, 1000]`, fps 30,
fade 200 ms) satisfying the no-clamp hypothesis, with the telescoped sum. -/
theorem c4_witness :
    ((calculateExportTimings [0, 500, 1000] 30 200 0 none).durations_s).sum
      = snapTime 30 (1000 + max (200:ℤ) 1000) - snapTime 30 0 := by
  have h : noClampList 30 (max (200:ℤ) 1000) [0, 500, 1000] := by
    norm_num [noClampList, snapTime, rustRound]
  simpa using c4_segment_sum_telescopes 30 200 0 0 [500, 1000] none (by norm_num) h

theorem bgSegmentsAux_mem (startMs limitMs : ℤ) :
    ∀ (durs : List ℤ) (idx : ℕ) (cum : ℤ) (i : ℕ) (sw tk : ℤ),
      (i, sw, tk) ∈ bgSegmentsAux startMs limitMs durs idx cum →
      ∃ (k : ℕ) (d : ℤ), i = idx + k ∧ durs[k]? = some d ∧
        sw = max (startMs - (cum + takeSum durs k)) 0 ∧
        tk = min (max (limitMs - ((cum + takeSum durs k) + sw - startMs)) 0) (d - sw) ∧
        startMs < (cum + takeSum durs k) + d ∧ 0 < tk := by
  intro durs
  induction durs with
  | nil => intro idx cum i sw tk h; simp [bgSegmentsAux] at h
  | cons d rest ih =>
      intro idx cum i sw tk h
      rw [bgSegmentsAux] at h
      by_cases h1 : cum + d ≤ startMs
      · rw [if_pos h1] at h
        obtain ⟨k, d2, hk, hget, hsw, htk, hlt, hpos⟩ := ih (idx + 1) (cum + d) i sw tk h
        exact ⟨k + 1, d2, by omega, by simpa using hget,
          by simpa [takeSum, add_assoc] using hsw,
          by simpa [takeSum, add_assoc] using htk,
          by simp only [takeSum, List.take_succ_cons, List.sum_cons] at *; omega, hpos⟩
      · rw [if_neg h1] at h
        by_cases h2 : limitMs ≤ cum - startMs
        · rw [if_pos h2] at h; simp at h
        · rw [if_neg h2] at h
          by_cases h3 : min (max (limitMs - (cum + (if startMs > cum then startMs - cum else 0)
              - startMs)) 0) (d - (if startMs > cum then startMs - cum else 0)) ≤ 0
          · rw [if_pos h3] at h
            obtain ⟨k, d2, hk, hget, hsw, htk, hlt, hpos⟩ := ih (idx + 1) (cum + d) i sw tk h
            exact ⟨k + 1, d2, by omega, by simpa using hget,
              by simpa [takeSum, add_assoc] using hsw,
              by simpa [takeSum, add_assoc] using htk,
              by simp only [takeSum, List.take_succ_cons, List.sum_cons] at *; omega, hpos⟩
          · rw [if_neg h3] at h
            rcases List.mem_cons.mp h with heq | hmem
            · simp only [Prod.mk.injEq] at heq
              obtain ⟨hi, hsw, htk⟩ := heq
              subst hi
              refine ⟨0, d, by omega, by simp, ?_, ?_, ?_, ?_⟩
              · rw [hsw]
                simp only [takeSum, List.take_zero, List.sum_nil, add_zero]
                split_ifs with hgt
                · rw [max_eq_left (by omega)]
                · rw [max_eq_right (by omega)]
              · rw [htk, hsw]
                simp only [takeSum, List.take_zero, List.sum_nil, add_zero]
              · simp only [takeSum, List.take_zero, List.sum_nil, add_zero]
                omega
              · rw [htk]
                exact not_le.mp h3
            · by_cases h4 : limitMs ≤ cum + (if startMs > cum then startMs - cum else 0)
                + min (max (limitMs - (cum + (if startMs > cum then startMs - cum else 0)
                  - startMs)) 0) (d - (if startMs > cum then startMs - cum else 0)) - startMs
              · rw [if_pos h4] at hmem; simp at hmem
              · rw [if_neg h4] at hmem
                obtain ⟨k, d2, hk, hget, hsw, htk, hlt, hpos⟩ :=
                  ih (idx + 1) (cum + d) i sw tk hmem
                exact ⟨k + 1, d2, by omega, by simpa using hget,
                  by simpa [takeSum, add_assoc] using hsw,
                  by simpa [takeSum, add_assoc] using htk,
                  by simp only [takeSum, List.take_succ_cons, List.sum_cons] at *; omega, hpos⟩

/-- C5: the background preparer walk. General part: every emitted triple
`(i, start_within, take)` satisfies `start_within = max(0, start_ms - cum_start(i))`
and `take = min(clip_duration - start_within, remaining_budget)` where
`remaining_budget = max(limit - (cum_start(i) + start_within - start_ms), 0)`,
the clip intersects the window (`start_ms < cum_start(i) + dur(i)`), and the
take is positive. Concrete part: clips of 3 s and 5 s with window
`[2000, 6000)` yield exactly `(clip0, start=2000, take=1000)` and
`(clip1, start=0, take=3000)`. -/
theorem c5_background_walk :
    (∀ (durs : List ℤ) (startMs limitMs : ℤ) (i : ℕ) (sw tk : ℤ),
      (i, sw, tk) ∈ bgSegmentsAux startMs limitMs durs 0 0 →
      ∃ d : ℤ, durs[i]? = some d ∧
        sw = max (startMs - takeSum durs i) 0 ∧
        tk = min (max (limitMs - (takeSum durs i + sw - startMs)) 0) (d - sw) ∧
        startMs < takeSum durs i + d ∧ 0 < tk) ∧
    preprocessBgSegments [3000, 5000] 2000 (some 4000) = [(0, 2000, 1000), (1, 0, 3000)] := by
  constructor
  · intro durs startMs limitMs i sw tk h
    obtain ⟨k, d, hk, hget, hsw, htk, hlt, hpos⟩ := bgSegmentsAux_mem startMs limitMs durs 0 0 i sw tk h
    have hik : k = i := by omega
    subst hik
    exact ⟨d, hget, by simpa using hsw, by simpa using htk, by simpa using hlt, hpos⟩
  · decide

/-- C5 witness: the general characterization applied to the first emitted
segment of the concrete two-clip example. -/
theorem c5_witness :
    ∃ d : ℤ, ([3000, 5000] : List ℤ)[0]? = some d ∧
      (2000 : ℤ) = max (2000 - takeSum [3000, 5000] 0) 0 ∧
      (1000 : ℤ) = min (max (4000 - (takeSum [3000, 5000] 0 + 2000 - 2000)) 0) (d - 2000) ∧
      (2000 : ℤ) < takeSum [3000, 5000] 0 + d ∧ (0 : ℤ) < 1000 :=
  c5_background_walk.1 [3000, 5000] 2000 4000 0 2000 1000 (by decide)

/-- C1: the claim as stated is false: with `duration_ms = 100` and `fps = 25`
the Mode B loop writes `(0.1 * 25) as usize = 2` frames (given a decoder that
can supply more), while `round(duration_s * fps) = round(2.5) = 3`. -/
theorem c1_counterexample :
    loopFrames 1000 (totalFrames (some 100) 25) = 2 ∧
    rustRound ((100 : ℚ) / 1000 * 25) = 3 ∧
    loopFrames 1000 (totalFrames (some 100) 25) ≠ (rustRound ((100 : ℚ) / 1000 * 25)).toNat := by
  have h1 : totalFrames (some 100) 25 = 2 := by
    show (⌊(100 : ℚ) / 1000 * 25⌋).toNat = 2
    have hfl : ⌊(100 : ℚ) / 1000 * 25⌋ = 2 := by norm_num
    rw [hfl]; rfl
  have h2 : rustRound ((100 : ℚ) / 1000 * 25) = 3 := by
    norm_num [rustRound]
  refine ⟨?_, h2, ?_⟩
  · rw [h1, loopFrames_eq_min]; decide
  · rw [h1, h2, loopFrames_eq_min]; decide

/-- C1 (amended): for a Mode B export with a window duration, the number of
frames written to the encoder pipe is `min(decoder frames available,
trunc(duration_ms / 1000 * fps))` — the frame budget is obtained by a
truncating cast, not by rounding. -/
theorem c1_frames_written (d fps : ℤ) (avail : ℕ) :
    loopFrames avail (totalFrames (some d) fps)
      = min avail (⌊(d : ℚ) / 1000 * fps⌋).toNat := by
  rw [loopFrames_eq_min]; rfl

/-- C3: the claim as stated is false for Mode B: the streaming path never
inserts its child processes into the active-exports registry (the
registration block at `exporter.rs:1653-1662` is only a comment). -/
theorem c3_counterexample : ExpEvent.regInsert ∉ modeBTrace true := by decide

/-- C3 (amended): Mode A jobs insert the child handle into the registry
exactly once, before the blocking I/O, and remove it exactly once on every
outcome (success, failure, cancel), so a terminal Mode A job has no registry
entry; Mode B streaming jobs are never inserted into the registry at all
(and hence also have no terminal registry entry). -/
theorem c3_registry_lifecycle :
    (∀ (hasBg : Bool) (o : ExpOutcome),
      (modeATrace hasBg o).count ExpEvent.regInsert = 1 ∧
      (modeATrace hasBg o).count ExpEvent.regRemove = 1 ∧
      (modeATrace hasBg o).indexOf ExpEvent.regInsert
        < (modeATrace hasBg o).indexOf ExpEvent.longRead) ∧
    (∀ b : Bool, ExpEvent.regInsert ∉ modeBTrace b ∧ ExpEvent.regRemove ∉ modeBTrace b) := by
  constructor
  · intro hasBg o
    cases hasBg <;> cases o <;> exact ⟨by decide, by decide, by decide⟩
  · intro b
    cases b <;> exact ⟨by decide, by decide⟩

/-- C7: the claim as stated is false on the Mode B path: a streaming export
with `chunk_index` present still encodes audio as AAC 320 kb/s stereo —
`VideoEncoder::new` hardcodes AAC and `chunk_index` is never forwarded. -/
theorem c7_counterexample :
    modeBStreamAudioArgs true (some 0) = ["-c:a", "aac", "-b:a", "320k", "-ac", "2"] ∧
    "alac" ∉ modeBStreamAudioArgs true (some 0) := by
  exact ⟨rfl, by decide⟩

/-- C7 (amended): on the Mode A filter-graph path, audio is encoded ALAC
stereo when `chunk_index` is present and AAC 320 kb/s stereo otherwise; on
the Mode B encoder pipe, audio is always AAC 320 kb/s stereo regardless of
`chunk_index` (which is not forwarded), and ALAC never appears. -/
theorem c7_audio_codecs :
    (∀ c : ℤ, modeAAudioArgs true (some c) = ["-c:a", "alac", "-ac", "2"]) ∧
    modeAAudioArgs true none = ["-c:a", "aac", "-b:a", "320k", "-ac", "2"] ∧
    (∀ (ha : Bool) (ci : Option ℤ),
      modeBStreamAudioArgs ha ci = videoEncoderAudioArgs ha ∧
      "alac" ∉ modeBStreamAudioArgs ha ci) := by
  refine ⟨fun c => rfl, rfl, fun ha ci => ⟨rfl, ?_⟩⟩
  cases ha <;> simp [modeBStreamAudioArgs, videoEncoderAudioArgs]

/-- C10: in the default Mode B streaming path the background preparer is
never invoked; the decoder is started on the first playlist entry only, with
an argument vector containing (besides the source path) only the raw-RGBA
pipe options — no seek (`-ss`), no scaling/padding/blur filter (`-vf`); the
remaining playlist entries are ignored, and an empty playlist is an error
rather than black frames. -/
theorem c10_streaming_decoder :
    streamingBgSelect [] = Except.error noBackgroundMsg ∧
    (∀ (p : String) (rest : List String), streamingBgSelect (p :: rest) = Except.ok p) ∧
    (∀ (p : String) (fps : ℕ) (a : String), a ∈ videoDecoderArgs p fps → a ≠ p →
      a ∈ (["-i", "-f", "image2pipe", "-pix_fmt", "rgba", "-vcodec", "rawvideo",
            "-r", Nat.repr fps, "-"] : List String)) ∧
    (∀ b : Bool, ExpEvent.bgPreprocess ∉ modeBTrace b) := by
  refine ⟨rfl, fun p rest => rfl, ?_, ?_⟩
  · intro p fps a ha hne
    simp only [videoDecoderArgs, List.mem_cons, List.not_mem_nil, or_false] at ha ⊢
    tauto
  · intro b
    cases b <;> decide

/-- C10 witness: the decoder argument properties applied at a concrete
path and frame rate. -/
theorem c10_witness :
    streamingBgSelect ["bg.mp4"] = Except.ok "bg.mp4" ∧
    ("-i" : String) ∈ (["-i", "-f", "image2pipe", "-pix_fmt", "rgba", "-vcodec",
      "rawvideo", "-r", Nat.repr 30, "-"] : List String) :=
  ⟨c10_streaming_decoder.2.1 "bg.mp4" [],
   c10_streaming_decoder.2.2.1 "bg.mp4" 30 "-i" (by decide) (by decide)⟩

/-- C8: the claim as stated is false: duplicate onsets are not rejected.
A directory containing `50.png` and `050.png` yields the onset sequence
`[50, 50]` — both stems parse to 50, the export proceeds, and the sequence
is not strictly increasing. -/
theorem c8_counterexample :
    exportOnsets [['5', '0', '.', 'p', 'n', 'g'], ['0', '5', '0', '.', 'p', 'n', 'g']]
      = [50, 50] ∧
    ¬ List.Chain' (fun a b : ℤ => a < b)
      (exportOnsets [['5', '0', '.', 'p', 'n', 'g'], ['0', '5', '0', '.', 'p', 'n', 'g']]) := by
  have h : exportOnsets [['5', '0', '.', 'p', 'n', 'g'], ['0', '5', '0', '.', 'p', 'n', 'g']]
      = [50, 50] := by decide
  refine ⟨h, ?_⟩
  rw [h]
  simp [List.chain'_cons]

/-- C8 (amended): `export_video` passes downstream the PNG stems sorted
ascending (non-decreasing) by integer filename stem; duplicates are kept,
not rejected. In particular `0.png`, `100.png`, `50.png` yield `[0, 50, 100]`. -/
theorem c8_onsets_sorted :
    (∀ files : List (List Char),
      List.Sorted (fun a b : ℤ => a ≤ b) (exportOnsets files)) ∧
    exportOnsets [['0', '.', 'p', 'n', 'g'], ['1', '0', '0', '.', 'p', 'n', 'g'],
      ['5', '0', '.', 'p', 'n', 'g']] = [0, 50, 100] := by
  constructor
  · intro files
    haveI inst1 : IsTotal (List Char) (fun a b => stemKey a ≤ stemKey b) :=
      ⟨fun a b => le_total _ _⟩
    haveI inst2 : IsTrans (List Char) (fun a b => stemKey a ≤ stemKey b) :=
      ⟨fun a b c hab hbc => le_trans hab hbc⟩
    have hs := List.sorted_insertionSort (fun a b => stemKey a ≤ stemKey b) (pngStems files)
    exact List.pairwise_map.mpr hs
  · decide

/-- C2: the Mode B loop loads the subtitle image by loop *index*, not by
onset. With onsets `[0, 500, 1000]`, frame 18 at 30 fps (600 ms) activates
subtitle index 1, and the code builds the filename `1.png`, while the
SubtitleFrame for that onset is `500.png` — so the intended file is never
loaded (the `sub_path.exists()` guard silently skips the upload). -/
theorem c2_subtitle_filename_bug :
    frameTimeMs 30 0 18 = 600 ∧
    findCurrentSub [0, 500, 1000] 600 = some 1 ∧
    subtitleFileName 1 = ['1', '.', 'p', 'n', 'g'] ∧
    claimedSubtitleFileName [0, 500, 1000] 1 = ['5', '0', '0', '.', 'p', 'n', 'g'] ∧
    subtitleFileName 1 ≠ claimedSubtitleFileName [0, 500, 1000] 1 := by
  have h1 : frameTimeMs 30 0 18 = 600 := by
    show ⌊(18 : ℚ) / 30 * 1000⌋ + 0 = 600
    norm_num
  have h3 : subtitleFileName 1 = ['1', '.', 'p', 'n', 'g'] := by
    simp [subtitleFileName, natDigitChars, natDigits, digitChar]
  have h4 : claimedSubtitleFileName [0, 500, 1000] 1 = ['5', '0', '0', '.', 'p', 'n', 'g'] := by
    simp [claimedSubtitleFileName, natDigitChars, natDigits, digitChar]
  refine ⟨h1, by decide, h3, h4, ?_⟩
  rw [h3, h4]
  decide

theorem findCurrentSubAux_first (t timeMs : ℤ) (rest : List ℤ) (i : ℕ)
    (h1 : t ≤ timeMs) (h2 : timeMs < rest.headD i32Max) :
    findCurrentSubAux timeMs (t :: rest) i = some i := by
  cases rest with
  | nil =>
      simp only [findCurrentSubAux]
      rw [if_pos ⟨h1, by simpa using h2⟩]
  | cons u rest2 =>
      simp only [findCurrentSubAux]
      rw [if_pos ⟨h1, by simpa using h2⟩]

/-- C6: the Mode B per-frame alpha. The code formula agrees with the claimed
piecewise formula (`min(1, rel_in/fade)` fading in, `min(1, rel_out/fade)`
fading out, `1` in the middle, fade-in checked first), and consequently a
subtitle whose onset equals `start_ms` gets `alpha = 0` on the first frame
and `alpha = 1` at frame `fade_ms * fps / 1000` (hypotheses: positive fps and
fade, `fade_ms * fps` divisible by 1000 so that the frame index is integral,
and the subtitle interval leaves room for both ramps). -/
theorem c6_fade_alpha (t0 fps fadeMs startTimeMs : ℤ) (rest : List ℤ) (k : ℕ)
    (hfps : 0 < fps) (hfade : 0 < fadeMs)
    (honset : t0 = startTimeMs)
    (hk : (k : ℤ) * 1000 = fadeMs * fps)
    (hroom : t0 + 2 * fadeMs ≤ rest.headD (t0 + 2000))
    (hmax : t0 + 2 * fadeMs ≤ i32Max) :
    (∀ (ts : List ℤ) (idx : ℕ) (timeMs fMs : ℤ),
      fadeAlpha ts idx timeMs fMs = claimAlpha ts idx timeMs fMs) ∧
    findCurrentSub (t0 :: rest) (frameTimeMs fps startTimeMs 0) = some 0 ∧
    fadeAlpha (t0 :: rest) 0 (frameTimeMs fps startTimeMs 0) fadeMs = 0 ∧
    findCurrentSub (t0 :: rest) (frameTimeMs fps startTimeMs k) = some 0 ∧
    fadeAlpha (t0 :: rest) 0 (frameTimeMs fps startTimeMs k) fadeMs = 1 := by
  subst honset
  have hfpsQ : (fps : ℚ) ≠ 0 := Int.cast_ne_zero.mpr (by omega)
  have hmaxL : t0 + 2 * fadeMs ≤ 2147483647 := by
    simpa only [i32Max] using hmax
  have htime0 : frameTimeMs fps t0 0 = t0 := by
    simp [frameTimeMs]
  have hfloor : (⌊(k : ℚ) / fps * 1000⌋ : ℤ) = fadeMs := by
    have hcast : (k : ℚ) * 1000 = (fadeMs : ℚ) * fps := by exact_mod_cast hk
    have hval : (k : ℚ) / fps * 1000 = (fadeMs : ℚ) := by
      field_simp
      linarith
    rw [hval, Int.floor_intCast]
  have htimek : frameTimeMs fps t0 k = fadeMs + t0 := by
    simp [frameTimeMs, hfloor]
  refine ⟨?_, ?_, ?_, ?_, ?_⟩
  · intro ts idx timeMs fMs
    simp only [fadeAlpha, claimAlpha]
    split_ifs <;> first | rw [min_comm] | rfl
  · rw [htime0]
    refine findCurrentSubAux_first t0 t0 rest 0 le_rfl ?_
    cases rest with
    | nil => simp only [List.headD_nil, i32Max]; omega
    | cons u rest2 =>
        simp only [List.headD_cons] at hroom ⊢
        omega
  · rw [htime0]
    simp only [fadeAlpha, List.getD_cons_zero]
    rw [if_pos (by omega)]
    simp
  · rw [htimek]
    refine findCurrentSubAux_first t0 (fadeMs + t0) rest 0 (by omega) ?_
    cases rest with
    | nil => simp only [List.headD_nil, i32Max]; omega
    | cons u rest2 =>
        simp only [List.headD_cons] at hroom ⊢
        omega
  · rw [htimek]
    cases rest with
    | nil =>
        simp only [List.headD_nil] at hroom
        simp only [fadeAlpha, List.getD_cons_zero, List.getElem?_cons_succ,
          List.getElem?_nil]
        rw [if_neg (by omega), if_neg (by omega)]
    | cons u rest2 =>
        simp only [List.headD_cons] at hroom
        simp only [fadeAlpha, List.getD_cons_zero, List.getElem?_cons_succ,
          List.getElem?_cons_zero]
        rw [if_neg (by omega), if_neg (by omega)]

/-- C6 witness: onsets `[0, 500]`, fps 30, fade 200 ms, window start 0 —
alpha is 0 at frame 0 and 1 at frame `200 * 30 / 1000 = 6`. -/
theorem c6_witness :
    fadeAlpha [0, 500] 0 (frameTimeMs 30 0 0) 200 = 0 ∧
    fadeAlpha [0, 500] 0 (frameTimeMs 30 0 6) 200 = 1 :=
  ⟨(c6_fade_alpha 0 30 200 0 [500] 6 (by norm_num) (by norm_num) rfl (by norm_num)
      (by norm_num [List.headD]) (by norm_num [i32Max])).2.2.1,
   (c6_fade_alpha 0 30 200 0 [500] 6 (by norm_num) (by norm_num) rfl (by norm_num)
      (by norm_num [List.headD]) (by norm_num [i32Max])).2.2.2.2⟩

theorem digitChar_isDigit (d : ℕ) (h : d < 10) : (digitChar d).isDigit = true := by
  interval_cases d <;> decide

theorem digitChar_toNat (d : ℕ) (h : d < 10) : (digitChar d).toNat - 48 = d := by
  interval_cases d <;> decide

theorem natDigits_mem_lt (n : ℕ) : ∀ d ∈ natDigits n, d < 10 := by
  induction n using Nat.strong_induction_on with
  | _ n ih =>
    rw [natDigits]
    split_ifs with h
    · intro d hd
      simp only [List.mem_singleton] at hd
      omega
    · intro d hd
      rcases List.mem_append.mp hd with h1 | h2
      · exact ih (n / 10) (Nat.div_lt_self (by omega) (by omega)) d h1
      · simp only [List.mem_singleton] at h2
        omega

theorem natDigits_ne_nil (n : ℕ) : natDigits n ≠ [] := by
  rw [natDigits]
  split_ifs <;> simp

theorem foldl_digit_start (l : List Char) (a : ℕ) :
    List.foldl (fun acc c => acc * 10 + (c.toNat - 48)) a l
      = a * 10 ^ l.length + List.foldl (fun acc c => acc * 10 + (c.toNat - 48)) 0 l := by
  induction l generalizing a with
  | nil => simp
  | cons c rest ih =>
    simp only [List.foldl_cons, List.length_cons]
    rw [ih (a * 10 + (c.toNat - 48)), ih (0 * 10 + (c.toNat - 48))]
    ring

theorem digitsToNat_cons (c : Char) (l : List Char) :
    digitsToNat (c :: l) = (c.toNat - 48) * 10 ^ l.length + digitsToNat l := by
  simp only [digitsToNat, List.foldl_cons]
  rw [foldl_digit_start]
  ring_nf

theorem digitsToNat_append (A B : List Char) :
    digitsToNat (A ++ B) = digitsToNat A * 10 ^ B.length + digitsToNat B := by
  simp only [digitsToNat, List.foldl_append]
  rw [foldl_digit_start]

theorem digitsToNat_natDigitChars (n : ℕ) : digitsToNat (natDigitChars n) = n := by
  induction n using Nat.strong_induction_on with
  | _ n ih =>
    rw [natDigitChars, natDigits]
    split_ifs with h
    · simp only [List.map_cons, List.map_nil, digitsToNat_cons]
      simp [digitsToNat, digitChar_toNat n h]
    · rw [List.map_append]
      rw [show List.map digitChar (natDigits (n / 10)) = natDigitChars (n / 10) from rfl]
      rw [digitsToNat_append]
      have h1 := ih (n / 10) (Nat.div_lt_self (by omega) (by omega))
      simp only [List.map_cons, List.map_nil, h1]
      have h2 : digitsToNat [digitChar (n % 10)] = n % 10 := by
        simp [digitsToNat, digitChar_toNat (n % 10) (by omega)]
      rw [h2]
      simp only [List.length_cons, List.length_nil]
      omega

theorem natDigitChars_all_digits (n : ℕ) : ∀ c ∈ natDigitChars n, c.isDigit = true := by
  intro c hc
  rw [natDigitChars] at hc
  obtain ⟨d, hd, rfl⟩ := List.mem_map.mp hc
  exact digitChar_isDigit d (natDigits_mem_lt n d hd)

theorem natDigitChars_ne_nil (n : ℕ) : natDigitChars n ≠ [] := by
  simp [natDigitChars, natDigits_ne_nil]

theorem padDigits_all_digits (k n : ℕ) : ∀ c ∈ padDigits k n, c.isDigit = true := by
  intro c hc
  rcases List.mem_append.mp hc with h | h
  · rw [List.eq_of_mem_replicate h]; decide
  · exact natDigitChars_all_digits n c h

theorem padDigits_ne_nil (k n : ℕ) : padDigits k n ≠ [] := by
  intro h
  rcases List.append_eq_nil.mp h with ⟨_, h2⟩
  exact natDigitChars_ne_nil n h2

theorem digitsToNat_replicate_zero (k : ℕ) : digitsToNat (List.replicate k '0') = 0 := by
  induction k with
  | zero => rfl
  | succ k ih =>
    rw [List.replicate_succ, digitsToNat_cons, ih]
    simp

theorem digitsToNat_padDigits (k n : ℕ) : digitsToNat (padDigits k n) = n := by
  rw [padDigits, digitsToNat_append, digitsToNat_replicate_zero, digitsToNat_natDigitChars]
  simp

theorem natDigits_length_le : ∀ (k n : ℕ), 1 ≤ k → n < 10 ^ k → (natDigits n).length ≤ k := by
  intro k
  induction k with
  | zero => omega
  | succ k ih =>
    intro n _ hn
    rw [natDigits]
    split_ifs with h
    · simp
    · rw [List.length_append, List.length_cons, List.length_nil]
      have hdiv : n / 10 < 10 ^ k := by
        rw [Nat.div_lt_iff_lt_mul (by omega)]
        calc n < 10 ^ (k + 1) := hn
          _ = 10 ^ k * 10 := by ring
      have hk1 : 1 ≤ k := by
        rcases Nat.eq_zero_or_pos k with h0 | h0
        · subst h0
          simp at hdiv
          omega
        · omega
      have := ih (n / 10) hk1 hdiv
      omega

theorem padDigits_length (k n : ℕ) (h1 : 1 ≤ k) (h2 : n < 10 ^ k) :
    (padDigits k n).length = k := by
  rw [padDigits, List.length_append, List.length_replicate]
  have hle := natDigits_length_le k n h1 h2
  have hlen : (natDigitChars n).length = (natDigits n).length := by
    simp [natDigitChars]
  omega

theorem takeWhile_all (p : Char → Bool) (A : List Char) (hA : ∀ c ∈ A, p c = true) :
    A.takeWhile p = A := by
  induction A with
  | nil => rfl
  | cons c rest ih =>
    rw [List.takeWhile_cons, if_pos (hA c (by simp))]
    rw [ih (fun x hx => hA x (by simp [hx]))]

theorem takeWhile_append_stop (p : Char → Bool) (A B : List Char) (b : Char)
    (hA : ∀ c ∈ A, p c = true) (hb : p b = false) :
    (A ++ b :: B).takeWhile p = A := by
  induction A with
  | nil => simp [List.takeWhile_cons, hb]
  | cons c rest ih =>
    rw [List.cons_append, List.takeWhile_cons, if_pos (hA c (by simp))]
    rw [ih (fun x hx => hA x (by simp [hx]))]

theorem beq_false_of_isDigit (c d : Char) (hc : c.isDigit = true)
    (hd : d.isDigit = false) : (c == d) = false := by
  rcases Bool.eq_false_or_eq_true (c == d) with h | h
  · have hcd := eq_of_beq h
    rw [hcd, hd] at hc
    exact absurd hc (by simp)
  · exact h

theorem isWsChar_false_of_isDigit (c : Char) (hc : c.isDigit = true) :
    isWsChar c = false := by
  rw [isWsChar]
  rw [beq_false_of_isDigit c ' ' hc (by decide),
    beq_false_of_isDigit c '\t' hc (by decide),
    beq_false_of_isDigit c '\n' hc (by decide),
    beq_false_of_isDigit c '\r' hc (by decide)]
  rfl

theorem findWsIdx_none (A : List Char) (hA : ∀ c ∈ A, isWsChar c = false) :
    findWsIdx A = none :=
  List.findIdx?_eq_none_iff.mpr hA

theorem findWsIdx_append_ws (A : List Char) (c : Char) (B : List Char)
    (hA : ∀ x ∈ A, isWsChar x = false) (hc : isWsChar c = true) :
    findWsIdx (A ++ c :: B) = some A.length := by
  rw [findWsIdx, List.findIdx?_append]
  rw [show List.findIdx? isWsChar A = none from findWsIdx_none A hA]
  rw [List.findIdx?_cons, if_pos hc]
  simp

theorem extractTimeToken_no_ws (A : List Char) (hA : ∀ c ∈ A, isWsChar c = false) :
    extractTimeToken A = A := by
  rw [extractTimeToken, findWsIdx_none A hA]

theorem extractTimeToken_ws (A : List Char) (c : Char) (B : List Char)
    (hA : ∀ x ∈ A, isWsChar x = false) (hc : isWsChar c = true) :
    extractTimeToken (A ++ c :: B) = A := by
  rw [extractTimeToken, findWsIdx_append_ws A c B hA hc]
  exact List.take_left A (c :: B)

theorem parseUnsignedDec_digits (A : List Char) (hne : A ≠ [])
    (hA : ∀ c ∈ A, c.isDigit = true) :
    parseUnsignedDec A = some (digitsToNat A : ℚ) := by
  have h1 : A.takeWhile Char.isDigit = A := takeWhile_all Char.isDigit A hA
  simp only [parseUnsignedDec, h1, List.drop_length]
  rw [if_neg (by simpa [List.isEmpty_iff] using hne)]

theorem parseUnsignedDec_digits_dot (A B : List Char) (hne : A ≠ [])
    (hA : ∀ c ∈ A, c.isDigit = true) (hB : ∀ c ∈ B, c.isDigit = true) :
    parseUnsignedDec (A ++ '.' :: B)
      = some ((digitsToNat A : ℚ) + (digitsToNat B : ℚ) / 10 ^ B.length) := by
  have h1 : (A ++ '.' :: B).takeWhile Char.isDigit = A :=
    takeWhile_append_stop Char.isDigit A B '.' hA (by decide)
  have h2 : (A ++ '.' :: B).drop A.length = '.' :: B := List.drop_left A ('.' :: B)
  simp only [parseUnsignedDec, h1, h2]
  rw [if_pos (by decide), if_pos (List.all_eq_true.mpr hB)]
  rw [if_neg (by simp [List.isEmpty_iff, hne])]

theorem parseUnsignedDec_colon (A B : List Char) (hA : ∀ c ∈ A, c.isDigit = true) :
    parseUnsignedDec (A ++ ':' :: B) = none := by
  have h1 : (A ++ ':' :: B).takeWhile Char.isDigit = A :=
    takeWhile_append_stop Char.isDigit A B ':' hA (by decide)
  have h2 : (A ++ ':' :: B).drop A.length = ':' :: B := List.drop_left A (':' :: B)
  simp only [parseUnsignedDec, h1, h2]
  rw [if_neg (by decide)]

theorem parseDecimalQ_of_head_digit (c : Char) (rest : List Char)
    (hc : c.isDigit = true) :
    parseDecimalQ (c :: rest) = parseUnsignedDec (c :: rest) := by
  rw [parseDecimalQ]
  rw [beq_false_of_isDigit c '+' hc (by decide),
    beq_false_of_isDigit c '-' hc (by decide)]
  simp

theorem splitCols_no_colon (A : List Char) (hA : ∀ c ∈ A, (c == ':') = false) :
    splitCols A = [A] := by
  induction A with
  | nil => rfl
  | cons c rest ih =>
    rw [splitCols, ih (fun x hx => hA x (by simp [hx]))]
    rw [if_neg (by simp [hA c (by simp)])]
    rfl

theorem splitCols_append (A B : List Char) (hA : ∀ c ∈ A, (c == ':') = false) :
    splitCols (A ++ ':' :: B) = A :: splitCols B := by
  induction A with
  | nil =>
    rw [List.nil_append, splitCols, if_pos (by decide)]
  | cons c rest ih =>
    rw [List.cons_append, splitCols, ih (fun x hx => hA x (by simp [hx]))]
    rw [if_neg (by simp [hA c (by simp)])]
    rfl

theorem renderHMS_no_ws (h m s mmm : ℕ) :
    ∀ c ∈ renderHMS h m s mmm, isWsChar c = false := by
  intro c hc
  rw [renderHMS] at hc
  rcases List.mem_append.mp hc with h1 | h1
  · exact isWsChar_false_of_isDigit c (padDigits_all_digits 2 h c h1)
  · rcases List.mem_cons.mp h1 with rfl | h1
    · decide
    rcases List.mem_append.mp h1 with h2 | h2
    · exact isWsChar_false_of_isDigit c (padDigits_all_digits 2 m c h2)
    rcases List.mem_cons.mp h2 with rfl | h2
    · decide
    rcases List.mem_append.mp h2 with h3 | h3
    · exact isWsChar_false_of_isDigit c (padDigits_all_digits 2 s c h3)
    rcases List.mem_cons.mp h3 with rfl | h3
    · decide
    · exact isWsChar_false_of_isDigit c (padDigits_all_digits 3 mmm c h3)

theorem parseDecimalQ_renderHMS (h m s mmm : ℕ) :
    parseDecimalQ (renderHMS h m s mmm) = none := by
  rw [renderHMS]
  obtain ⟨c, cs, hpd⟩ : ∃ c cs, padDigits 2 h = c :: cs := by
    cases hp : padDigits 2 h with
    | nil => exact absurd hp (padDigits_ne_nil 2 h)
    | cons c cs => exact ⟨c, cs, rfl⟩
  have hcdig : c.isDigit = true := by
    apply padDigits_all_digits 2 h
    rw [hpd]; simp
  rw [hpd, List.cons_append, parseDecimalQ_of_head_digit c _ hcdig,
    ← List.cons_append, ← hpd]
  exact parseUnsignedDec_colon (padDigits 2 h) _ (padDigits_all_digits 2 h)

theorem parseDecimalQ_padDigits (k n : ℕ) :
    parseDecimalQ (padDigits k n) = some (n : ℚ) := by
  obtain ⟨c, cs, hpd⟩ : ∃ c cs, padDigits k n = c :: cs := by
    cases hp : padDigits k n with
    | nil => exact absurd hp (padDigits_ne_nil k n)
    | cons c cs => exact ⟨c, cs, rfl⟩
  have hcdig : c.isDigit = true := by
    apply padDigits_all_digits k n
    rw [hpd]; simp
  rw [hpd, parseDecimalQ_of_head_digit c cs hcdig, ← hpd]
  rw [parseUnsignedDec_digits _ (padDigits_ne_nil k n) (padDigits_all_digits k n)]
  rw [digitsToNat_padDigits]

theorem parseDecimalQ_pad_dot (s mmm : ℕ) (hmmm : mmm ≤ 999) :
    parseDecimalQ (padDigits 2 s ++ '.' :: padDigits 3 mmm)
      = some ((s : ℚ) + (mmm : ℚ) / 1000) := by
  obtain ⟨c, cs, hpd⟩ : ∃ c cs, padDigits 2 s = c :: cs := by
    cases hp : padDigits 2 s with
    | nil => exact absurd hp (padDigits_ne_nil 2 s)
    | cons c cs => exact ⟨c, cs, rfl⟩
  have hcdig : c.isDigit = true := by
    apply padDigits_all_digits 2 s
    rw [hpd]; simp
  rw [hpd, List.cons_append, parseDecimalQ_of_head_digit c _ hcdig,
    ← List.cons_append, ← hpd]
  rw [parseUnsignedDec_digits_dot _ _ (padDigits_ne_nil 2 s)
    (padDigits_all_digits 2 s) (padDigits_all_digits 3 mmm)]
  rw [digitsToNat_padDigits, digitsToNat_padDigits,
    padDigits_length 3 mmm (by omega) (by omega)]
  norm_num

theorem parseFfTime_renderHMS (h m s mmm : ℕ) (hmmm : mmm ≤ 999) :
    parseFfTime (renderHMS h m s mmm)
      = (h : ℚ) * 3600 + (m : ℚ) * 60 + ((s : ℚ) + (mmm : ℚ) / 1000) := by
  have hnone := parseDecimalQ_renderHMS h m s mmm
  have hsplit : splitCols (renderHMS h m s mmm)
      = [padDigits 2 h, padDigits 2 m, padDigits 2 s ++ '.' :: padDigits 3 mmm] := by
    rw [renderHMS]
    rw [splitCols_append _ _ (fun c hc =>
      beq_false_of_isDigit c ':' (padDigits_all_digits 2 h c hc) (by decide))]
    rw [splitCols_append _ _ (fun c hc =>
      beq_false_of_isDigit c ':' (padDigits_all_digits 2 m c hc) (by decide))]
    rw [splitCols_no_colon _ ?hlast]
    case hlast =>
      intro c hc
      rcases List.mem_append.mp hc with h1 | h1
      · exact beq_false_of_isDigit c ':' (padDigits_all_digits 2 s c h1) (by decide)
      rcases List.mem_cons.mp h1 with rfl | h1
      · decide
      · exact beq_false_of_isDigit c ':' (padDigits_all_digits 3 mmm c h1) (by decide)
  simp only [parseFfTime, hnone, hsplit, parseDecimalQ_padDigits,
    parseDecimalQ_pad_dot s mmm hmmm]

theorem parseFfTime_fmtFixed3 (q : ℚ) (hq : 0 ≤ q) :
    parseFfTime (fmtFixed3 q) = ((roundHE (q * 1000)).toNat : ℚ) / 1000 := by
  rw [fmtFixed3, if_neg (not_lt.mpr hq), fmtFixed3Pos]
  have hdot : parseDecimalQ (natDigitChars ((roundHE (q * 1000)).toNat / 1000)
      ++ '.' :: padDigits 3 ((roundHE (q * 1000)).toNat % 1000))
      = some (((((roundHE (q * 1000)).toNat / 1000 : ℕ)) : ℚ)
        + ((((roundHE (q * 1000)).toNat % 1000 : ℕ)) : ℚ) / 1000) := by
    obtain ⟨c, cs, hpd⟩ : ∃ c cs,
        natDigitChars ((roundHE (q * 1000)).toNat / 1000) = c :: cs := by
      cases hp : natDigitChars ((roundHE (q * 1000)).toNat / 1000) with
      | nil => exact absurd hp (natDigitChars_ne_nil _)
      | cons c cs => exact ⟨c, cs, rfl⟩
    have hcdig : c.isDigit = true := by
      apply natDigitChars_all_digits
      rw [hpd]; simp
    rw [hpd, List.cons_append, parseDecimalQ_of_head_digit c _ hcdig,
      ← List.cons_append, ← hpd]
    rw [parseUnsignedDec_digits_dot _ _ (natDigitChars_ne_nil _)
      (natDigitChars_all_digits _) (padDigits_all_digits 3 _)]
    rw [digitsToNat_natDigitChars, digitsToNat_padDigits,
      padDigits_length 3 _ (by omega) (by omega)]
    norm_num
  simp only [parseFfTime, hdot]
  have hM : ((roundHE (q * 1000)).toNat : ℚ)
      = 1000 * (((roundHE (q * 1000)).toNat / 1000 : ℕ) : ℚ)
        + (((roundHE (q * 1000)).toNat % 1000 : ℕ) : ℚ) := by
    exact_mod_cast (Nat.div_add_mod (roundHE (q * 1000)).toNat 1000).symm
  rw [hM]
  ring

theorem parseI64_digits (A : List Char) (hne : A ≠ [])
    (hA : ∀ c ∈ A, c.isDigit = true)
    (hbound : (digitsToNat A : ℤ) ≤ 9223372036854775807) :
    parseI64 A = some (digitsToNat A : ℤ) := by
  cases A with
  | nil => exact absurd rfl hne
  | cons c rest =>
    have hc := hA c (by simp)
    rw [parseI64]
    rw [beq_false_of_isDigit c '+' hc (by decide),
      beq_false_of_isDigit c '-' hc (by decide)]
    simp only [Bool.false_or, Bool.or_false, if_false, ite_false, Bool.false_eq_true]
    rw [if_neg (by
      simp only [List.isEmpty_cons, Bool.or_eq_true, Bool.not_eq_true']
      rw [List.all_eq_true.mpr hA]
      simp)]
    rw [if_neg (not_lt.mpr hbound)]

/-- C9 (amended): progress parsing. (1) A `time=HH:MM:SS.mmm` value anywhere
in the line — followed by whitespace or ending the line — parses to
`hours * 3600 + minutes * 60 + seconds`. (2) An `out_time_ms=<µs>` value
parses only when *followed by whitespace*, and then yields the microseconds
divided by 1,000,000 rounded to three decimal places (the driver re-renders
the value through `format!("{:.3}")` before parsing it back). (3) An
`out_time_ms=` value at the end of the line (no trailing whitespace) yields
no progress value at all. -/
theorem c9_progress_parsing :
    (∀ (line : List Char) (i : ℕ) (h m s mmm : ℕ) (tl : List Char),
      findSub line timeEq = some i →
      mmm ≤ 999 →
      line.drop (i + 5) = renderHMS h m s mmm ++ tl →
      (tl = [] ∨ ∃ (c : Char) (tl2 : List Char), tl = c :: tl2 ∧ isWsChar c = true) →
      progressOfLine line
        = some ((h : ℚ) * 3600 + (m : ℚ) * 60 + ((s : ℚ) + (mmm : ℚ) / 1000))) ∧
    (∀ (line : List Char) (i : ℕ) (micros : ℕ) (c : Char) (tl : List Char),
      findSub line timeEq = none →
      findSub line outTimeMsEq = some i →
      line.drop (i + 12) = natDigitChars micros ++ c :: tl →
      isWsChar c = true →
      (micros : ℤ) ≤ 9223372036854775807 →
      progressOfLine line
        = some (((roundHE ((micros : ℚ) / 1000)).toNat : ℚ) / 1000)) ∧
    (∀ (line : List Char) (i : ℕ),
      findSub line timeEq = none →
      findSub line outTimeMsEq = some i →
      findWsIdx (line.drop (i + 12)) = none →
      progressOfLine line = none) := by
  refine ⟨?_, ?_, ?_⟩
  · intro line i h m s mmm tl hfind hmmm hdrop htl
    simp only [progressOfLine, extractTime, hfind]
    rw [hdrop]
    have htok : extractTimeToken (renderHMS h m s mmm ++ tl) = renderHMS h m s mmm := by
      rcases htl with rfl | ⟨c, tl2, rfl, hws⟩
      · rw [List.append_nil]
        exact extractTimeToken_no_ws _ (renderHMS_no_ws h m s mmm)
      · exact extractTimeToken_ws _ c tl2 (renderHMS_no_ws h m s mmm) hws
    rw [htok]
    simp only [Option.map]
    rw [parseFfTime_renderHMS h m s mmm hmmm]
  · intro line i micros c tl hfind1 hfind2 hdrop hws hbound
    simp only [progressOfLine, extractTime, hfind1, hfind2]
    rw [hdrop]
    have hwsidx : findWsIdx (natDigitChars micros ++ c :: tl)
        = some (natDigitChars micros).length :=
      findWsIdx_append_ws _ c tl
        (fun x hx => isWsChar_false_of_isDigit x (natDigitChars_all_digits micros x hx)) hws
    rw [hwsidx]
    dsimp only
    rw [List.take_left]
    have hparse : parseI64 (natDigitChars micros) = some (micros : ℤ) := by
      have hb : (digitsToNat (natDigitChars micros) : ℤ) ≤ 9223372036854775807 := by
        rw [digitsToNat_natDigitChars]
        exact_mod_cast hbound
      rw [parseI64_digits _ (natDigitChars_ne_nil micros)
        (natDigitChars_all_digits micros) hb]
      rw [digitsToNat_natDigitChars]
    rw [hparse]
    simp only [Option.map]
    have hcast : (((micros : ℤ) : ℚ)) / 1000000 = (micros : ℚ) / 1000000 := by
      push_cast
      ring
    rw [hcast, parseFfTime_fmtFixed3 _ (by positivity)]
    have harg : (micros : ℚ) / 1000000 * 1000 = (micros : ℚ) / 1000 := by ring
    rw [harg]
  · intro line i hfind1 hfind2 hnone
    simp only [progressOfLine, extractTime, hfind1, hfind2, hnone]
    rfl

/-- C9: the claim as stated is false: a progress line consisting of exactly
`out_time_ms=1000000` (microseconds at end of line, no trailing whitespace)
yields no parsed time at all — the parser requires a whitespace after the
number — while the claim requires `1000000 / 1,000,000 = 1.0` seconds. -/
theorem c9_counterexample :
    progressOfLine ['o', 'u', 't', '_', 't', 'i', 'm', 'e', '_', 'm', 's', '=',
      '1', '0', '0', '0', '0', '0', '0'] = none := by
  decide

/-- C9 witness: the `time=` form applied at the concrete line
`time=00:00:05.120`, parsing to 5.12 seconds. -/
theorem c9_witness :
    progressOfLine ['t', 'i', 'm', 'e', '=', '0', '0', ':', '0', '0', ':',
      '0', '5', '.', '1', '2', '0']
      = some ((0 : ℚ) * 3600 + (0 : ℚ) * 60 + ((5 : ℚ) + (120 : ℚ) / 1000)) := by
  have hdrop : (['t', 'i', 'm', 'e', '=', '0', '0', ':', '0', '0', ':',
      '0', '5', '.', '1', '2', '0'] : List Char).drop (0 + 5)
      = renderHMS 0 0 5 120 ++ [] := by
    simp [renderHMS, padDigits, natDigitChars, natDigits, digitChar]
  exact c9_progress_parsing.1 _ 0 0 0 5 120 [] (by decide) (by norm_num) hdrop (Or.inl rfl)
